import Mathlib

/-!
# Verification of the Minesweeper knowledge-based inference engine

Shallow embedding of `src/minesweeper/minesweeper.py` (class `Sentence` and
class `MinesweeperAI`), together with proofs and refutations of the spec's
claims about it.

Modelling conventions:
* Python `set` of 2-tuples of ints becomes `Finset (Int × Int)`;
  Python `int` becomes `Int` (counts may go negative, as in the source).
* Mutating methods become pure functions from state to state.
* Loops over the 3×3 index grid in `get_neighbours` with mutually exclusive
  guards become `Finset.filter` over the 9-element grid (the net effect of the
  loop is order-independent, so the filter form is exact).
* `update_safes_mines` collects the candidate safe/mine cells from all
  sentences, then calls `mark_safe` on each candidate safe cell and
  `mark_mine` on each candidate mine cell.  Applying `mark_safe` for every
  element of a set `S` (in any order) removes `S` from every sentence's cells;
  applying `mark_mine` for every element of `S` removes `S` from the cells and
  decrements the count by the number of removed cells.  The embedding uses
  these order-free composites (`markSafeSet`, `markMineSet`); singleton
  bridging lemmas relate them to the per-cell operations.
* `add_new_sentences` iterates over the *live* sentence list while appending
  (Python's `for s in list` over a list that grows during iteration).  It is
  embedded index-based with explicit fuel (`ansLoop`); the returned `Bool`
  records whether the iteration genuinely finished (`true`) or the fuel ran
  out (`false`).  The loop does not terminate on all inputs, so the fuel is
  essential, not a convenience.
* `make_random_move`'s rejection-sampling loop is embedded over an explicit
  list of random draws (`randLoop`); outer `none` means the modelled draws
  were exhausted (the Python loop would keep drawing), `some none` means the
  function returned Python `None`, `some (some c)` means it returned cell `c`.
-/

/-- A board cell `(row, col)`; coordinates are Python ints. -/
abbrev Cell : Type := Int × Int

/-- `class Sentence`: a set of cells and a count of how many of them are
mines. -/
structure Sentence where
  cells : Finset Cell
  count : Int
  deriving DecidableEq

namespace Sentence

/-- `Sentence.known_mines`: all cells if `len(cells) == count`, else empty. -/
def known_mines (s : Sentence) : Finset Cell :=
  if (s.cells.card : Int) = s.count then s.cells else ∅

/-- `Sentence.known_safes`: all cells if `count == 0`, else empty. -/
def known_safes (s : Sentence) : Finset Cell :=
  if s.count = 0 then s.cells else ∅

/-- `Sentence.mark_mine`: if the cell is present, remove it and decrement
the count. -/
def mark_mine (c : Cell) (s : Sentence) : Sentence :=
  if c ∈ s.cells then ⟨s.cells.erase c, s.count - 1⟩ else s

/-- `Sentence.mark_safe`: if the cell is present, remove it, count
unchanged. -/
def mark_safe (c : Cell) (s : Sentence) : Sentence :=
  if c ∈ s.cells then ⟨s.cells.erase c, s.count⟩ else s

end Sentence

/-- The mutable state of `class MinesweeperAI`. -/
structure AgentState where
  height : Nat
  width : Nat
  moves_made : Finset Cell
  mines : Finset Cell
  safes : Finset Cell
  knowledge : List Sentence
  deriving DecidableEq

/-- `MinesweeperAI.__init__`. -/
def initState (h w : Nat) : AgentState :=
  { height := h, width := w, moves_made := ∅, mines := ∅, safes := ∅,
    knowledge := [] }

namespace AgentState

/-- The bounds check `0 <= i < self.height and 0 <= j < self.width`. -/
def inBounds (st : AgentState) (x : Cell) : Prop :=
  0 ≤ x.1 ∧ x.1 < (st.height : Int) ∧ 0 ≤ x.2 ∧ x.2 < (st.width : Int)

instance (st : AgentState) (x : Cell) : Decidable (st.inBounds x) := by
  unfold inBounds; infer_instance

/-- `board_size` property. -/
def board_size (st : AgentState) : Nat := st.height * st.width

/-- `moves_left` property: `board_size - len(moves_made) - len(mines)`
(Python int arithmetic, may be negative on arbitrary states). -/
def moves_left (st : AgentState) : Int :=
  (st.board_size : Int) - st.moves_made.card - st.mines.card

/-- `MinesweeperAI.mark_mine`: add to the global mine set and update every
sentence. -/
def mark_mine (c : Cell) (st : AgentState) : AgentState :=
  { st with mines := insert c st.mines,
            knowledge := st.knowledge.map (Sentence.mark_mine c) }

/-- `MinesweeperAI.mark_safe`: add to the global safe set and update every
sentence. -/
def mark_safe (c : Cell) (st : AgentState) : AgentState :=
  { st with safes := insert c st.safes,
            knowledge := st.knowledge.map (Sentence.mark_safe c) }

/-- Net effect of calling `mark_safe` once for every cell of `S`
(in any order). -/
def markSafeSet (S : Finset Cell) (st : AgentState) : AgentState :=
  { st with safes := st.safes ∪ S,
            knowledge := st.knowledge.map (fun s => ⟨s.cells \ S, s.count⟩) }

/-- Net effect of calling `mark_mine` once for every cell of `S`
(in any order). -/
def markMineSet (S : Finset Cell) (st : AgentState) : AgentState :=
  { st with mines := st.mines ∪ S,
            knowledge := st.knowledge.map
              (fun s => ⟨s.cells \ S, s.count - ((s.cells ∩ S).card : Int)⟩) }

/-- The 3×3 index grid `range(row-1, row+2) × range(col-1, col+2)` scanned by
`get_neighbours` (and by the game's `nearby_mines`). -/
def ring (c : Cell) : Finset Cell :=
  ({c.1 - 1, c.1, c.1 + 1} : Finset Int) ×ˢ ({c.2 - 1, c.2, c.2 + 1} : Finset Int)

/-- `MinesweeperAI.get_neighbours`: the loop skips the cell itself and cells
already known safe; known mines decrement the count and are skipped; remaining
in-bounds cells are collected. -/
def get_neighbours (st : AgentState) (c : Cell) (count : Int) :
    Finset Cell × Int :=
  ((ring c).filter
      (fun x => x ≠ c ∧ x ∉ st.safes ∧ x ∉ st.mines ∧ st.inBounds x),
   count - (((ring c).filter
      (fun x => x ≠ c ∧ x ∉ st.safes ∧ x ∈ st.mines)).card : Int))

/-- The candidate safe cells collected by `update_safes_mines`. -/
def safeCands (kb : List Sentence) : Finset Cell :=
  kb.foldr (fun s acc => s.known_safes ∪ acc) ∅

/-- The candidate mine cells collected by `update_safes_mines`. -/
def mineCands (kb : List Sentence) : Finset Cell :=
  kb.foldr (fun s acc => s.known_mines ∪ acc) ∅

/-- `MinesweeperAI.update_safes_mines`: collect all currently known safe and
mine cells from the sentences, then mark every candidate safe cell safe and
every candidate mine cell a mine (safes first, as in the source). -/
def update_safes_mines (st : AgentState) : AgentState :=
  markMineSet (mineCands st.knowledge)
    (markSafeSet (safeCands st.knowledge) st)

end AgentState

/-- One derivation step of `add_new_sentences` on the pair
`(knowledge[i], knowledge[j])`: if the sentences differ and the first's cells
are a subset of the second's, the difference sentence is appended unless an
equal sentence is already present. -/
def ansStep (kb : List Sentence) (s1 s2 : Sentence) : List Sentence :=
  if s1 = s2 then kb
  else if s1.cells ⊆ s2.cells then
    if (⟨s2.cells \ s1.cells, s2.count - s1.count⟩ : Sentence) ∈ kb then kb
    else kb ++ [⟨s2.cells \ s1.cells, s2.count - s1.count⟩]
  else kb

/-- `MinesweeperAI.add_new_sentences`, embedded index-based: Python's
`for sentence_1 in self.knowledge: for sentence_2 in self.knowledge:` iterates
over the live list, so appended sentences are themselves visited later.  The
`Bool` is `true` iff the iteration ran to completion within `fuel` steps; the
list returned on fuel exhaustion is the knowledge accumulated so far. -/
def ansLoop (fuel : Nat) (kb : List Sentence) (i j : Nat) :
    List Sentence × Bool :=
  match fuel with
  | 0 => (kb, false)
  | fuel + 1 =>
    if i < kb.length then
      if j < kb.length then
        ansLoop fuel (ansStep kb (kb.getD i ⟨∅, 0⟩) (kb.getD j ⟨∅, 0⟩)) i (j + 1)
      else
        ansLoop fuel kb (i + 1) 0
    else (kb, true)

namespace AgentState

/-- `add_new_sentences` applied to a state, with fuel. -/
def add_new_sentences (fuel : Nat) (st : AgentState) : AgentState × Bool :=
  let r := ansLoop fuel st.knowledge 0 0
  ({ st with knowledge := r.1 }, r.2)

/-- The saturation performed at the end of `add_knowledge`:
`update_safes_mines` (Rule 1, one pass) followed by `add_new_sentences`
(Rule 2). -/
def saturate (fuel : Nat) (st : AgentState) : AgentState × Bool :=
  add_new_sentences fuel (update_safes_mines st)

/-- The first three steps of `add_knowledge`: record the move, mark the cell
safe, append the observation sentence built by `get_neighbours`. -/
def obsState (st : AgentState) (c : Cell) (count : Int) : AgentState :=
  let st1 := { st with moves_made := insert c st.moves_made }
  let st2 := mark_safe c st1
  let nb := get_neighbours st2 c count
  { st2 with knowledge := st2.knowledge ++ [⟨nb.1, nb.2⟩] }

/-- `MinesweeperAI.add_knowledge` (the spec's `recordObservation`): record the
move, mark the cell safe, append the observation sentence built by
`get_neighbours`, then run `update_safes_mines` and `add_new_sentences`. -/
def add_knowledge (fuel : Nat) (st : AgentState) (c : Cell) (count : Int) :
    AgentState × Bool :=
  saturate fuel (obsState st c count)

/-- The rejection-sampling loop of `make_random_move`, over an explicit list
of draws. -/
def randLoop (st : AgentState) : List Cell → Option (Option Cell)
  | [] => none
  | d :: rest =>
    if d ∉ st.moves_made ∧ d ∉ st.mines then some (some d)
    else randLoop st rest

/-- `MinesweeperAI.make_random_move`: return `None` when `moves_left == 0`,
otherwise draw until a cell outside `moves_made ∪ mines` comes up. -/
def make_random_move (st : AgentState) (draws : List Cell) :
    Option (Option Cell) :=
  if st.moves_left = 0 then some none
  else randLoop st draws

end AgentState

/-- The set of in-bounds cells of an `height × width` board. -/
def boardCells (h w : Nat) : Finset Cell :=
  Finset.Icc (0 : Int) ((h : Int) - 1) ×ˢ Finset.Icc (0 : Int) ((w : Int) - 1)

/-- The in-bounds cells of the agent's board. -/
def AgentState.board (st : AgentState) : Finset Cell :=
  boardCells st.height st.width

/-- The true neighbours counted by the game's `nearby_mines`: in-bounds cells
of the 3×3 grid around `c`, excluding `c` itself. -/
def trueNbrs (st : AgentState) (c : Cell) : Finset Cell :=
  (AgentState.ring c).filter (fun x => x ≠ c ∧ st.inBounds x)

/-- All sentences over board `B` that are true under mine layout `M`: their
cells lie on the board and their count is the number of `M`-mines among their
cells.  This is the finite universe that bounds Rule 2's appends. -/
def SentU (B M : Finset Cell) : Finset Sentence :=
  B.powerset.image (fun cs => ⟨cs, ((cs ∩ M).card : Int)⟩)

/-- A sentence is on-board and true under `M`. -/
def TrueS (B M : Finset Cell) (s : Sentence) : Prop :=
  s.cells ⊆ B ∧ s.count = ((s.cells ∩ M).card : Int)

/-- A well-formed observation with respect to mine layout `M`: the observed
cell is on the board, is not a mine, the reported count is the true number of
mines among its in-bounds neighbours, and `M` lies on the board. -/
def WFObs (M : Finset Cell) (st : AgentState) (c : Cell) (n : Int) : Prop :=
  M ⊆ st.board ∧ c ∈ st.board ∧ c ∉ M ∧
    n = (((trueNbrs st c) ∩ M).card : Int)

instance (M : Finset Cell) (st : AgentState) (c : Cell) (n : Int) :
    Decidable (WFObs M st c n) := by
  unfold WFObs; infer_instance

/-- Soundness of an agent state with respect to a mine layout `M`: classified
cells are classified correctly, and every sentence is on the board and true
under `M` (its count is exactly the number of `M`-mines among its cells). -/
def Sound (M : Finset Cell) (st : AgentState) : Prop :=
  M ⊆ st.board ∧
  st.safes ∩ M = ∅ ∧
  st.mines ⊆ M ∧
  st.safes ⊆ st.board ∧
  st.moves_made ⊆ st.safes ∧
  ∀ s ∈ st.knowledge, TrueS st.board M s

instance (B M : Finset Cell) (s : Sentence) : Decidable (TrueS B M s) := by
  unfold TrueS; infer_instance

instance (M : Finset Cell) (st : AgentState) : Decidable (Sound M st) := by
  unfold Sound; infer_instance

/-- Agent states reachable by a sequence of completed `add_knowledge` calls
whose observations are all well-formed for the fixed mine layout `M`. -/
inductive Reachable (M : Finset Cell) (h w : Nat) : AgentState → Prop where
  | init : M ⊆ boardCells h w → Reachable M h w (initState h w)
  | step {st c n fuel st'} : Reachable M h w st → WFObs M st c n →
      AgentState.add_knowledge fuel st c n = (st', true) →
      Reachable M h w st'

/-- Agent states reachable by a sequence of completed `add_knowledge` calls
with arbitrary (possibly ill-formed) observations. -/
inductive ReachableAny (h w : Nat) : AgentState → Prop where
  | init : ReachableAny h w (initState h w)
  | step {st c n fuel st'} : ReachableAny h w st →
      AgentState.add_knowledge fuel st c n = (st', true) →
      ReachableAny h w st'

/-! ## Concrete scenarios used by counterexamples and witnesses -/

namespace Scenario

/-- The mine layout for the 2×3 scenario: a single mine at `(0,1)`. -/
def M0 : Finset Cell := {((0 : Int), (1 : Int))}

/-- Fresh 2×3 agent. -/
def st0 : AgentState := initState 2 3

/-- After observing `(cell=(0,0), count=1)` (true for layout `M0`). -/
def stA : AgentState := (AgentState.add_knowledge 40 st0 (0, 0) 1).1

/-- After further observing `(cell=(1,1), count=1)` (true for layout `M0`).
The final Rule 2 pass of this call derives the sentence
`{(0,2),(1,2)} = 0`, which is never extracted by Rule 1 in the same call. -/
def stB : AgentState := (AgentState.add_knowledge 40 stA (1, 1) 1).1

/-- A knowledge base holding `{A,B,C}=1` and `{A,B}=1` for
`A=(0,0), B=(0,1), C=(0,2)` on a 1×3 board. -/
def stC2 : AgentState :=
  { height := 1, width := 3, moves_made := ∅, mines := ∅, safes := ∅,
    knowledge :=
      [⟨{((0 : Int), (0 : Int)), (0, 1), (0, 2)}, 1⟩,
       ⟨{((0 : Int), (0 : Int)), (0, 1)}, 1⟩] }

/-- A 1×1 agent whose knowledge base holds the (inconsistent, but
syntactically unremarkable) sentence `{} = 1`. -/
def stDiv : AgentState :=
  { height := 1, width := 1, moves_made := ∅, mines := ∅, safes := ∅,
    knowledge := [⟨∅, 1⟩] }

/-- The evolving knowledge base of the diverging `add_new_sentences` run
started from `stDiv`: after `k` appends it is
`[{}=1, {}=0, {}=-1, …, {}=-k]`. -/
def kbDiv : Nat → List Sentence
  | 0 => [⟨∅, 1⟩, ⟨∅, 0⟩]
  | k + 1 => kbDiv k ++ [⟨∅, -(k + 1 : Int)⟩]

/-- A reachable 2×2 end-of-game state: all of `(0,0)`, `(0,1)`, `(1,0)`
observed, `(1,1)` deduced to be a mine. -/
def M1 : Finset Cell := {((1 : Int), (1 : Int))}

/-- Fresh 2×2 agent. -/
def su0 : AgentState := initState 2 2

/-- After observing `(cell=(0,0), count=1)` (true for layout `M1`). -/
def su1 : AgentState := (AgentState.add_knowledge 40 su0 (0, 0) 1).1

/-- After further observing `(cell=(0,1), count=1)`. -/
def su2 : AgentState := (AgentState.add_knowledge 40 su1 (0, 1) 1).1

/-- After further observing `(cell=(1,0), count=1)`; at this point
`moves_made ∪ mines` covers the whole 2×2 board. -/
def su3 : AgentState := (AgentState.add_knowledge 40 su2 (1, 0) 1).1

end Scenario

/-! ## Finite universe of true sentences, for the termination argument -/

/-- Potential of a knowledge base: its length plus the number of true
sentences not yet present.  It is invariant under the deduplicated appends of
`add_new_sentences`, which makes it an upper bound for the list length. -/
def kbPot (B M : Finset Cell) (kb : List Sentence) : Nat :=
  kb.length + ((SentU B M) \ kb.toFinset).card

/-- Termination measure for `ansLoop`, relative to the constant potential
`P` of the run: appends decrease the first summand, inner-loop progress the
third, outer-loop progress the second. -/
def ansMeasure (P : Nat) (kb : List Sentence) (i j : Nat) : Nat :=
  (P - kb.length) * (P + 2) * (P + 2) + (kb.length - i) * (P + 2) +
    (kb.length + 1 - j)

/-! ## Structural lemmas: state components only grow -/

lemma ansStep_extends (kb : List Sentence) (s1 s2 : Sentence) :
    ∃ t, ansStep kb s1 s2 = kb ++ t := by
  unfold ansStep
  split
  · exact ⟨[], by simp⟩
  · split
    · split
      · exact ⟨[], by simp⟩
      · exact ⟨_, rfl⟩
    · exact ⟨[], by simp⟩

lemma ansLoop_zero (kb : List Sentence) (i j : Nat) :
    ansLoop 0 kb i j = (kb, false) := rfl

lemma ansLoop_succ (f : Nat) (kb : List Sentence) (i j : Nat) :
    ansLoop (f + 1) kb i j =
      if i < kb.length then
        if j < kb.length then
          ansLoop f (ansStep kb (kb.getD i ⟨∅, 0⟩) (kb.getD j ⟨∅, 0⟩)) i (j + 1)
        else ansLoop f kb (i + 1) 0
      else (kb, true) := rfl

lemma ansStep_self (kb : List Sentence) (s : Sentence) :
    ansStep kb s s = kb := if_pos rfl

lemma ansStep_skip (kb : List Sentence) (s1 s2 : Sentence)
    (h : ¬ s1.cells ⊆ s2.cells) : ansStep kb s1 s2 = kb := by
  unfold ansStep
  by_cases h12 : s1 = s2
  · rw [if_pos h12]
  · rw [if_neg h12, if_neg h]

lemma ansStep_dup (kb : List Sentence) (s1 s2 : Sentence) (h12 : s1 ≠ s2)
    (hsub : s1.cells ⊆ s2.cells)
    (hmem : (⟨s2.cells \ s1.cells, s2.count - s1.count⟩ : Sentence) ∈ kb) :
    ansStep kb s1 s2 = kb := by
  unfold ansStep
  rw [if_neg h12, if_pos hsub, if_pos hmem]

lemma ansStep_add (kb : List Sentence) (s1 s2 : Sentence) (h12 : s1 ≠ s2)
    (hsub : s1.cells ⊆ s2.cells)
    (hmem : (⟨s2.cells \ s1.cells, s2.count - s1.count⟩ : Sentence) ∉ kb) :
    ansStep kb s1 s2 = kb ++ [⟨s2.cells \ s1.cells, s2.count - s1.count⟩] := by
  unfold ansStep
  rw [if_neg h12, if_pos hsub, if_neg hmem]

lemma ansLoop_extends :
    ∀ (fuel : Nat) (kb : List Sentence) (i j : Nat),
      ∃ t, (ansLoop fuel kb i j).1 = kb ++ t := by
  intro fuel
  induction fuel with
  | zero => exact fun kb i j => ⟨[], by simp [ansLoop]⟩
  | succ f ih =>
    intro kb i j
    unfold ansLoop
    split
    · split
      · obtain ⟨t1, h1⟩ := ansStep_extends kb (kb.getD i ⟨∅, 0⟩) (kb.getD j ⟨∅, 0⟩)
        obtain ⟨t2, h2⟩ := ih (ansStep kb (kb.getD i ⟨∅, 0⟩) (kb.getD j ⟨∅, 0⟩)) i (j + 1)
        exact ⟨t1 ++ t2, by rw [h2, h1, List.append_assoc]⟩
      · exact ih kb (i + 1) 0
    · exact ⟨[], by simp⟩

lemma ansLoop_length_le (fuel : Nat) (kb : List Sentence) (i j : Nat) :
    kb.length ≤ (ansLoop fuel kb i j).1.length := by
  obtain ⟨t, ht⟩ := ansLoop_extends fuel kb i j
  simp [ht]

namespace AgentState

lemma update_safes_mines_safes (st : AgentState) :
    (update_safes_mines st).safes = st.safes ∪ safeCands st.knowledge := rfl

lemma update_safes_mines_mines (st : AgentState) :
    (update_safes_mines st).mines = st.mines ∪ mineCands st.knowledge := rfl

lemma update_safes_mines_moves (st : AgentState) :
    (update_safes_mines st).moves_made = st.moves_made := rfl

lemma update_safes_mines_length (st : AgentState) :
    (update_safes_mines st).knowledge.length = st.knowledge.length := by
  simp [update_safes_mines, markMineSet, markSafeSet]

lemma saturate_fst (fuel : Nat) (st : AgentState) :
    (saturate fuel st).1 =
      { update_safes_mines st with
        knowledge := (ansLoop fuel (update_safes_mines st).knowledge 0 0).1 } :=
  rfl

lemma saturate_safes_sub (fuel : Nat) (st : AgentState) :
    st.safes ⊆ (saturate fuel st).1.safes := by
  rw [saturate_fst]
  simp only [update_safes_mines_safes]
  exact Finset.subset_union_left

lemma saturate_mines_sub (fuel : Nat) (st : AgentState) :
    st.mines ⊆ (saturate fuel st).1.mines := by
  rw [saturate_fst]
  simp only [update_safes_mines_mines]
  exact Finset.subset_union_left

lemma saturate_length_le (fuel : Nat) (st : AgentState) :
    st.knowledge.length ≤ (saturate fuel st).1.knowledge.length := by
  rw [saturate_fst]
  simp only
  rw [← update_safes_mines_length st]
  exact ansLoop_length_le fuel _ 0 0

lemma saturate_moves (fuel : Nat) (st : AgentState) :
    (saturate fuel st).1.moves_made = st.moves_made := rfl

lemma obsState_safes (st : AgentState) (c : Cell) (n : Int) :
    (obsState st c n).safes = insert c st.safes := rfl

lemma obsState_mines (st : AgentState) (c : Cell) (n : Int) :
    (obsState st c n).mines = st.mines := rfl

lemma obsState_moves (st : AgentState) (c : Cell) (n : Int) :
    (obsState st c n).moves_made = insert c st.moves_made := rfl

lemma add_knowledge_moves (fuel : Nat) (st : AgentState) (c : Cell) (n : Int) :
    (add_knowledge fuel st c n).1.moves_made = insert c st.moves_made := rfl

lemma add_knowledge_safes_sub (fuel : Nat) (st : AgentState) (c : Cell)
    (n : Int) :
    insert c st.safes ⊆ (add_knowledge fuel st c n).1.safes := by
  have h := saturate_safes_sub fuel (obsState st c n)
  rwa [obsState_safes] at h

lemma add_knowledge_mines_sub (fuel : Nat) (st : AgentState) (c : Cell)
    (n : Int) :
    st.mines ⊆ (add_knowledge fuel st c n).1.mines := by
  have h := saturate_mines_sub fuel (obsState st c n)
  rwa [obsState_mines] at h

end AgentState

/-! ## Claim C1: idempotence of saturation -/

/-- C1, counterexample.  The state `stB` is reached from a fresh 2×3 agent by
two completed `recordObservation` calls (both well-formed for the layout
`M0 = {(0,1)}`), yet running the saturation procedure once more changes
`safes`: the final Rule 2 pass of the second call derived `{(0,2),(1,2)} = 0`
after Rule 1 had already run, so those cells are extracted only by the next
Rule 1 pass.  This refutes the claim that one run of saturation already
reaches a fixed point. -/
theorem c1_not_idempotent_cex :
    AgentState.add_knowledge 40 Scenario.st0 (0, 0) 1 = (Scenario.stA, true) ∧
    AgentState.add_knowledge 40 Scenario.stA (1, 1) 1 = (Scenario.stB, true) ∧
    WFObs Scenario.M0 Scenario.st0 (0, 0) 1 ∧
    WFObs Scenario.M0 Scenario.stA (1, 1) 1 ∧
    (AgentState.saturate 40 Scenario.stB).2 = true ∧
    (AgentState.saturate 40 Scenario.stB).1.safes ≠ Scenario.stB.safes := by
  decide

/-- C1, amended.  Saturation is not idempotent: a second run may add newly
extractable cells to `safes`/`mines` (see the counterexample).  What does hold
for every agent state is that a second run only ever adds: `moves_made` is
unchanged, `safes` and `mines` never lose a cell, and the sentence list never
shrinks. -/
theorem c1_saturate_monotone (st : AgentState) (fuel : Nat) :
    (AgentState.saturate fuel st).1.moves_made = st.moves_made ∧
    st.safes ⊆ (AgentState.saturate fuel st).1.safes ∧
    st.mines ⊆ (AgentState.saturate fuel st).1.mines ∧
    st.knowledge.length ≤ (AgentState.saturate fuel st).1.knowledge.length :=
  ⟨AgentState.saturate_moves fuel st, AgentState.saturate_safes_sub fuel st,
   AgentState.saturate_mines_sub fuel st, AgentState.saturate_length_le fuel st⟩

/-! ## Claim C2: soundness of Rule 2 through to extraction -/

/-- C2, counterexample.  With knowledge base `{A,B,C}=1, {A,B}=1`
(`A=(0,0), B=(0,1), C=(0,2)`), the saturation run at the end of
`add_knowledge` completes, derives the sentence `{C}=0` — but `C` is *not* in
`safes` when the call returns, because Rule 1 ran before the final Rule 2
pass.  This refutes the half of the claim that says `C` is a member of the
global safes set. -/
theorem c2_rule2_extraction_cex :
    (AgentState.saturate 40 Scenario.stC2).2 = true ∧
    (⟨{((0 : Int), (2 : Int))}, 0⟩ : Sentence) ∈
      (AgentState.saturate 40 Scenario.stC2).1.knowledge ∧
    ((0 : Int), (2 : Int)) ∉ (AgentState.saturate 40 Scenario.stC2).1.safes := by
  decide

/-! ## Claim C5: zero-count observation scenario -/

/-- C5, counterexample.  After `recordObservation(cell=(1,1), count=0)` on a
fresh 3×3 agent the sentence list is *not* empty: the observation sentence,
emptied by safe-marking, remains as the vacuous sentence `{} = 0`; the code
never discards vacuous sentences. -/
theorem c5_residual_sentence_cex :
    (AgentState.add_knowledge 40 (initState 3 3) (1, 1) 0).2 = true ∧
    (AgentState.add_knowledge 40 (initState 3 3) (1, 1) 0).1.knowledge ≠ [] := by
  decide

/-- C5, amended.  On a fresh 3×3 agent, `recordObservation((1,1), 0)`
completes, marks all 8 neighbours of `(1,1)` safe, and leaves no sentence with
a non-empty cell set — the knowledge base is exactly the single vacuous
sentence `{} = 0` (not the empty list). -/
theorem c5_zero_count_scenario :
    (AgentState.add_knowledge 40 (initState 3 3) (1, 1) 0).2 = true ∧
    (∀ x ∈ (AgentState.ring (1, 1)).erase (1, 1),
      x ∈ (AgentState.add_knowledge 40 (initState 3 3) (1, 1) 0).1.safes) ∧
    (AgentState.add_knowledge 40 (initState 3 3) (1, 1) 0).1.knowledge =
      [⟨∅, 0⟩] := by
  decide

/-! ## Claim C8: monotonicity of knowledge -/

/-- C8.  Across any completed `recordObservation` call, no cell is removed
from `safes` or `mines`, and in particular `|safes| + |mines|` does not
decrease. -/
theorem c8_knowledge_monotone (st : AgentState) (c : Cell) (n : Int)
    (fuel : Nat) (st' : AgentState)
    (hrun : AgentState.add_knowledge fuel st c n = (st', true)) :
    st.safes ⊆ st'.safes ∧ st.mines ⊆ st'.mines ∧
    st.safes.card + st.mines.card ≤ st'.safes.card + st'.mines.card := by
  have h1 : (AgentState.add_knowledge fuel st c n).1 = st' := by rw [hrun]
  subst h1
  refine ⟨?_, AgentState.add_knowledge_mines_sub fuel st c n, ?_⟩
  · exact (Finset.subset_insert c st.safes).trans
      (AgentState.add_knowledge_safes_sub fuel st c n)
  · have hs : st.safes.card ≤ (AgentState.add_knowledge fuel st c n).1.safes.card :=
      Finset.card_le_card ((Finset.subset_insert c st.safes).trans
        (AgentState.add_knowledge_safes_sub fuel st c n))
    have hm : st.mines.card ≤ (AgentState.add_knowledge fuel st c n).1.mines.card :=
      Finset.card_le_card (AgentState.add_knowledge_mines_sub fuel st c n)
    omega

/-- C8, witness: the first observation of the 2×3 scenario. -/
theorem c8_knowledge_monotone_witness :
    AgentState.add_knowledge 40 Scenario.st0 (0, 0) 1 = (Scenario.stA, true) ∧
    Scenario.st0.safes.card + Scenario.st0.mines.card ≤
      Scenario.stA.safes.card + Scenario.stA.mines.card := by
  have hrun : AgentState.add_knowledge 40 Scenario.st0 (0, 0) 1 =
      (Scenario.stA, true) := by decide
  exact ⟨hrun,
    (c8_knowledge_monotone Scenario.st0 (0, 0) 1 40 Scenario.stA hrun).2.2⟩

/-! ## Claim C9: played cells are classified safe -/

/-- C9.  After every completed `recordObservation` call (with arbitrary
observations), every cell ever recorded as a move is in the agent's safe set:
`add_knowledge` inserts the cell into both `moves_made` and `safes`, and
`safes` only grows. -/
theorem c9_moves_subset_safes {h w : Nat} {st : AgentState}
    (hr : ReachableAny h w st) : st.moves_made ⊆ st.safes := by
  induction hr with
  | init => simp [initState]
  | @step st c n fuel st' hprev hrun ih =>
    have h1 : (AgentState.add_knowledge fuel st c n).1 = st' := by rw [hrun]
    subst h1
    rw [AgentState.add_knowledge_moves]
    exact (Finset.insert_subset_insert c ih).trans
      (AgentState.add_knowledge_safes_sub fuel st c n)

/-- C9, witness: the 2×3 scenario state after one observation. -/
theorem c9_moves_subset_safes_witness :
    ReachableAny 2 3 Scenario.stA ∧
    Scenario.stA.moves_made ⊆ Scenario.stA.safes := by
  have h0 : ReachableAny 2 3 Scenario.st0 := ReachableAny.init
  have hrun : AgentState.add_knowledge 40 Scenario.st0 (0, 0) 1 =
      (Scenario.stA, true) := by decide
  have h1 : ReachableAny 2 3 Scenario.stA := ReachableAny.step h0 hrun
  exact ⟨h1, c9_moves_subset_safes h1⟩

/-! ## Claim C2 (amended) and C10: general Rule 2 derivations -/

lemma saturate_knowledge_eq (fuel : Nat) (st : AgentState) :
    (AgentState.saturate fuel st).1.knowledge =
      (ansLoop fuel (AgentState.update_safes_mines st).knowledge 0 0).1 := rfl

lemma saturate_flag_eq (fuel : Nat) (st : AgentState) :
    (AgentState.saturate fuel st).2 =
      (ansLoop fuel (AgentState.update_safes_mines st).knowledge 0 0).2 := rfl

lemma saturate_safes_eq (fuel : Nat) (st : AgentState) :
    (AgentState.saturate fuel st).1.safes =
      (AgentState.update_safes_mines st).safes := rfl

lemma add_new_sentences_knowledge_eq (fuel : Nat) (st : AgentState) :
    (AgentState.add_new_sentences fuel st).1.knowledge =
      (ansLoop fuel st.knowledge 0 0).1 := rfl

/-- C2, amended.  For any three distinct cells, if the knowledge base
consists of `{A,B,C}=1` and `{A,B}=1`, the saturation run at the end of
`add_knowledge` completes and derives the sentence `{C}=0`; `C` is not added
to `safes` by that run (it is exactly as safe as it was before), but the
*next* Rule 1 pass (`update_safes_mines`, e.g. during the next
`recordObservation`) puts `C` into `safes`. -/
theorem c2_rule2_derives_next_pass (A B C : Cell) (st : AgentState)
    (hAB : A ≠ B) (hAC : A ≠ C) (hBC : B ≠ C)
    (hkb : st.knowledge = [⟨{A, B, C}, 1⟩, ⟨{A, B}, 1⟩]) :
    (AgentState.saturate 12 st).2 = true ∧
    (⟨{C}, 0⟩ : Sentence) ∈ (AgentState.saturate 12 st).1.knowledge ∧
    (AgentState.saturate 12 st).1.safes = st.safes ∧
    C ∈ (AgentState.update_safes_mines (AgentState.saturate 12 st).1).safes := by
  have hCAB : C ∉ ({A, B} : Finset Cell) := by
    simp [Ne.symm hAC, Ne.symm hBC]
  have hsub21 : ({A, B} : Finset Cell) ⊆ {A, B, C} := by
    intro x hx
    simp only [Finset.mem_insert, Finset.mem_singleton] at hx ⊢
    tauto
  have hnsub12 : ¬ ({A, B, C} : Finset Cell) ⊆ {A, B} :=
    fun h => hCAB (h (by simp))
  have hne_sets : ({A, B} : Finset Cell) ≠ {A, B, C} := by
    intro h
    exact hCAB (h.symm ▸ (by simp : C ∈ ({A, B, C} : Finset Cell)))
  have hdiff : ({A, B, C} : Finset Cell) \ {A, B} = {C} := by
    ext x
    simp only [Finset.mem_sdiff, Finset.mem_insert, Finset.mem_singleton]
    constructor
    · rintro ⟨h1 | h1 | h1, h2⟩ <;> tauto
    · rintro rfl
      exact ⟨by tauto, by tauto⟩
  have hdiff2 : ({A, B, C} : Finset Cell) \ {C} = {A, B} := by
    ext x
    simp only [Finset.mem_sdiff, Finset.mem_insert, Finset.mem_singleton]
    constructor
    · rintro ⟨h1 | h1 | h1, h2⟩ <;> tauto
    · intro h
      rcases h with rfl | rfl
      · exact ⟨by tauto, hAC⟩
      · exact ⟨by tauto, hBC⟩
  have hcard3 : ({A, B, C} : Finset Cell).card = 3 := by
    rw [Finset.card_insert_of_not_mem (by simp [hAB, hAC]),
      Finset.card_insert_of_not_mem (by simp [hBC]), Finset.card_singleton]
  have hcard2 : ({A, B} : Finset Cell).card = 2 := by
    rw [Finset.card_insert_of_not_mem (by simp [hAB]), Finset.card_singleton]
  have hsc : AgentState.safeCands [⟨{A, B, C}, 1⟩, ⟨{A, B}, 1⟩] = ∅ := by
    simp [AgentState.safeCands, Sentence.known_safes]
  have hmc : AgentState.mineCands [⟨{A, B, C}, 1⟩, ⟨{A, B}, 1⟩] = ∅ := by
    simp [AgentState.mineCands, Sentence.known_mines, hcard3, hcard2]
  have hupdk : (AgentState.update_safes_mines st).knowledge
      = [⟨{A, B, C}, 1⟩, ⟨{A, B}, 1⟩] := by
    simp [AgentState.update_safes_mines, AgentState.markMineSet,
      AgentState.markSafeSet, hkb, hsc, hmc]
  have hupds : (AgentState.update_safes_mines st).safes = st.safes := by
    simp [AgentState.update_safes_mines, AgentState.markMineSet,
      AgentState.markSafeSet, hkb, hsc]
  -- the add_new_sentences trace: pair (1,0) appends {C}=0, pair (2,0)
  -- rederives {A,B}=1 which is already present, everything else is skipped
  have hne12 : (⟨{A, B, C}, 1⟩ : Sentence) ≠ ⟨{A, B}, 1⟩ := by
    intro h
    rw [Sentence.mk.injEq] at h
    exact hne_sets h.1.symm
  have hne13 : (⟨{A, B, C}, 1⟩ : Sentence) ≠ ⟨{C}, 0⟩ := by
    intro h
    rw [Sentence.mk.injEq] at h
    exact one_ne_zero h.2
  have hne23 : (⟨{A, B}, 1⟩ : Sentence) ≠ ⟨{C}, 0⟩ := by
    intro h
    rw [Sentence.mk.injEq] at h
    exact one_ne_zero h.2
  have e1 : ansLoop 12 [⟨{A, B, C}, 1⟩, ⟨{A, B}, 1⟩] 0 0
      = ansLoop 11 [⟨{A, B, C}, 1⟩, ⟨{A, B}, 1⟩] 0 1 := by
    rw [show (12:Nat) = 11+1 from rfl, ansLoop_succ, if_pos (by simp),
      if_pos (by simp)]
    rw [show List.getD [(⟨{A, B, C}, 1⟩ : Sentence), ⟨{A, B}, 1⟩] 0 ⟨∅, 0⟩
        = ⟨{A, B, C}, 1⟩ from rfl, ansStep_self]
  have e2 : ansLoop 11 [⟨{A, B, C}, 1⟩, ⟨{A, B}, 1⟩] 0 1
      = ansLoop 10 [⟨{A, B, C}, 1⟩, ⟨{A, B}, 1⟩] 0 2 := by
    rw [show (11:Nat) = 10+1 from rfl, ansLoop_succ, if_pos (by simp),
      if_pos (by simp)]
    rw [show List.getD [(⟨{A, B, C}, 1⟩ : Sentence), ⟨{A, B}, 1⟩] 0 ⟨∅, 0⟩
        = ⟨{A, B, C}, 1⟩ from rfl,
      show List.getD [(⟨{A, B, C}, 1⟩ : Sentence), ⟨{A, B}, 1⟩] 1 ⟨∅, 0⟩
        = ⟨{A, B}, 1⟩ from rfl,
      ansStep_skip _ _ _ hnsub12]
  have e3 : ansLoop 10 [⟨{A, B, C}, 1⟩, ⟨{A, B}, 1⟩] 0 2
      = ansLoop 9 [⟨{A, B, C}, 1⟩, ⟨{A, B}, 1⟩] 1 0 := by
    rw [show (10:Nat) = 9+1 from rfl, ansLoop_succ, if_pos (by simp),
      if_neg (by simp)]
  have e4 : ansLoop 9 [⟨{A, B, C}, 1⟩, ⟨{A, B}, 1⟩] 1 0
      = ansLoop 8 [⟨{A, B, C}, 1⟩, ⟨{A, B}, 1⟩, ⟨{C}, 0⟩] 1 1 := by
    rw [show (9:Nat) = 8+1 from rfl, ansLoop_succ, if_pos (by simp),
      if_pos (by simp)]
    rw [show List.getD [(⟨{A, B, C}, 1⟩ : Sentence), ⟨{A, B}, 1⟩] 0 ⟨∅, 0⟩
        = ⟨{A, B, C}, 1⟩ from rfl,
      show List.getD [(⟨{A, B, C}, 1⟩ : Sentence), ⟨{A, B}, 1⟩] 1 ⟨∅, 0⟩
        = ⟨{A, B}, 1⟩ from rfl,
      ansStep_add _ _ _ (Ne.symm hne12) hsub21 (by
        simp [hdiff, Sentence.mk.injEq])]
    simp [hdiff]
  have e5 : ansLoop 8 [⟨{A, B, C}, 1⟩, ⟨{A, B}, 1⟩, ⟨{C}, 0⟩] 1 1
      = ansLoop 7 [⟨{A, B, C}, 1⟩, ⟨{A, B}, 1⟩, ⟨{C}, 0⟩] 1 2 := by
    rw [show (8:Nat) = 7+1 from rfl, ansLoop_succ, if_pos (by simp),
      if_pos (by simp)]
    rw [show List.getD [(⟨{A, B, C}, 1⟩ : Sentence), ⟨{A, B}, 1⟩, ⟨{C}, 0⟩] 1 ⟨∅, 0⟩
        = ⟨{A, B}, 1⟩ from rfl, ansStep_self]
  have e6 : ansLoop 7 [⟨{A, B, C}, 1⟩, ⟨{A, B}, 1⟩, ⟨{C}, 0⟩] 1 2
      = ansLoop 6 [⟨{A, B, C}, 1⟩, ⟨{A, B}, 1⟩, ⟨{C}, 0⟩] 1 3 := by
    rw [show (7:Nat) = 6+1 from rfl, ansLoop_succ, if_pos (by simp),
      if_pos (by simp)]
    rw [show List.getD [(⟨{A, B, C}, 1⟩ : Sentence), ⟨{A, B}, 1⟩, ⟨{C}, 0⟩] 1 ⟨∅, 0⟩
        = ⟨{A, B}, 1⟩ from rfl,
      show List.getD [(⟨{A, B, C}, 1⟩ : Sentence), ⟨{A, B}, 1⟩, ⟨{C}, 0⟩] 2 ⟨∅, 0⟩
        = ⟨{C}, 0⟩ from rfl,
      ansStep_skip _ _ _ (fun h => hAC (by simpa using h (by simp)))]
  have e7 : ansLoop 6 [⟨{A, B, C}, 1⟩, ⟨{A, B}, 1⟩, ⟨{C}, 0⟩] 1 3
      = ansLoop 5 [⟨{A, B, C}, 1⟩, ⟨{A, B}, 1⟩, ⟨{C}, 0⟩] 2 0 := by
    rw [show (6:Nat) = 5+1 from rfl, ansLoop_succ, if_pos (by simp),
      if_neg (by simp)]
  have e8 : ansLoop 5 [⟨{A, B, C}, 1⟩, ⟨{A, B}, 1⟩, ⟨{C}, 0⟩] 2 0
      = ansLoop 4 [⟨{A, B, C}, 1⟩, ⟨{A, B}, 1⟩, ⟨{C}, 0⟩] 2 1 := by
    rw [show (5:Nat) = 4+1 from rfl, ansLoop_succ, if_pos (by simp),
      if_pos (by simp)]
    rw [show List.getD [(⟨{A, B, C}, 1⟩ : Sentence), ⟨{A, B}, 1⟩, ⟨{C}, 0⟩] 2 ⟨∅, 0⟩
        = ⟨{C}, 0⟩ from rfl,
      show List.getD [(⟨{A, B, C}, 1⟩ : Sentence), ⟨{A, B}, 1⟩, ⟨{C}, 0⟩] 0 ⟨∅, 0⟩
        = ⟨{A, B, C}, 1⟩ from rfl,
      ansStep_dup _ _ _ (Ne.symm hne13) (by simp) (by
        simp only [List.mem_cons]
        right; left
        rw [Sentence.mk.injEq]
        constructor
        · show ({A, B, C} : Finset Cell) \ {C} = {A, B}
          exact hdiff2
        · norm_num)]
  have e9 : ansLoop 4 [⟨{A, B, C}, 1⟩, ⟨{A, B}, 1⟩, ⟨{C}, 0⟩] 2 1
      = ansLoop 3 [⟨{A, B, C}, 1⟩, ⟨{A, B}, 1⟩, ⟨{C}, 0⟩] 2 2 := by
    rw [show (4:Nat) = 3+1 from rfl, ansLoop_succ, if_pos (by simp),
      if_pos (by simp)]
    rw [show List.getD [(⟨{A, B, C}, 1⟩ : Sentence), ⟨{A, B}, 1⟩, ⟨{C}, 0⟩] 2 ⟨∅, 0⟩
        = ⟨{C}, 0⟩ from rfl,
      show List.getD [(⟨{A, B, C}, 1⟩ : Sentence), ⟨{A, B}, 1⟩, ⟨{C}, 0⟩] 1 ⟨∅, 0⟩
        = ⟨{A, B}, 1⟩ from rfl,
      ansStep_skip _ _ _ (fun h => hCAB (h (by simp)))]
  have e10 : ansLoop 3 [⟨{A, B, C}, 1⟩, ⟨{A, B}, 1⟩, ⟨{C}, 0⟩] 2 2
      = ansLoop 2 [⟨{A, B, C}, 1⟩, ⟨{A, B}, 1⟩, ⟨{C}, 0⟩] 2 3 := by
    rw [show (3:Nat) = 2+1 from rfl, ansLoop_succ, if_pos (by simp),
      if_pos (by simp)]
    rw [show List.getD [(⟨{A, B, C}, 1⟩ : Sentence), ⟨{A, B}, 1⟩, ⟨{C}, 0⟩] 2 ⟨∅, 0⟩
        = ⟨{C}, 0⟩ from rfl, ansStep_self]
  have e11 : ansLoop 2 [⟨{A, B, C}, 1⟩, ⟨{A, B}, 1⟩, ⟨{C}, 0⟩] 2 3
      = ansLoop 1 [⟨{A, B, C}, 1⟩, ⟨{A, B}, 1⟩, ⟨{C}, 0⟩] 3 0 := by
    rw [show (2:Nat) = 1+1 from rfl, ansLoop_succ, if_pos (by simp),
      if_neg (by simp)]
  have e12 : ansLoop 1 [⟨{A, B, C}, 1⟩, ⟨{A, B}, 1⟩, ⟨{C}, 0⟩] 3 0
      = ([⟨{A, B, C}, 1⟩, ⟨{A, B}, 1⟩, ⟨{C}, 0⟩], true) := by
    rw [show (1:Nat) = 0+1 from rfl, ansLoop_succ, if_neg (by simp)]
  have hans : ansLoop 12 [⟨{A, B, C}, 1⟩, ⟨{A, B}, 1⟩] 0 0
      = ([⟨{A, B, C}, 1⟩, ⟨{A, B}, 1⟩, ⟨{C}, 0⟩], true) := by
    rw [e1, e2, e3, e4, e5, e6, e7, e8, e9, e10, e11, e12]
  have hsat1 : (AgentState.saturate 12 st).1.knowledge
      = [⟨{A, B, C}, 1⟩, ⟨{A, B}, 1⟩, ⟨{C}, 0⟩] := by
    rw [saturate_knowledge_eq, hupdk, hans]
  have hsat2 : (AgentState.saturate 12 st).2 = true := by
    rw [saturate_flag_eq, hupdk, hans]
  have hsats : (AgentState.saturate 12 st).1.safes = st.safes := by
    rw [saturate_safes_eq]
    exact hupds
  refine ⟨hsat2, by rw [hsat1]; simp, hsats, ?_⟩
  have hscF : AgentState.safeCands [⟨{A, B, C}, 1⟩, ⟨{A, B}, 1⟩, ⟨{C}, 0⟩]
      = {C} := by
    simp [AgentState.safeCands, Sentence.known_safes]
  rw [AgentState.update_safes_mines_safes, hsat1, hscF]
  simp

/-- C2, witness: the concrete 1×3 instance `A=(0,0), B=(0,1), C=(0,2)`. -/
theorem c2_rule2_derives_next_pass_witness :
    Scenario.stC2.knowledge =
      [⟨{((0 : Int), (0 : Int)), (0, 1), (0, 2)}, 1⟩,
       ⟨{((0 : Int), (0 : Int)), (0, 1)}, 1⟩] ∧
    ((0 : Int), (2 : Int)) ∈
      (AgentState.update_safes_mines
        (AgentState.saturate 12 Scenario.stC2).1).safes := by
  have h := c2_rule2_derives_next_pass (0, 0) (0, 1) (0, 2) Scenario.stC2
    (by decide) (by decide) (by decide) rfl
  exact ⟨rfl, h.2.2.2⟩

/-- C10.  If the knowledge base consists of two sentences with identical cell
sets but different counts, `add_new_sentences` treats each as a subset of the
other and appends both empty-cell difference sentences `{} = m-n` and
`{} = n-m` — one of which has a negative count, and both of which are nonzero
— rather than skipping or rejecting the pair.  (Membership is shown in the
knowledge list after five loop steps; the loop only ever appends.) -/
theorem c10_equal_cells_resolution (cs : Finset Cell) (n m : Int)
    (st : AgentState) (hne : cs.Nonempty) (hnm : n ≠ m)
    (hkb : st.knowledge = [⟨cs, n⟩, ⟨cs, m⟩]) :
    (⟨∅, m - n⟩ : Sentence) ∈ (AgentState.add_new_sentences 5 st).1.knowledge ∧
    (⟨∅, n - m⟩ : Sentence) ∈ (AgentState.add_new_sentences 5 st).1.knowledge ∧
    (m - n ≠ 0 ∧ n - m ≠ 0) ∧ (m - n < 0 ∨ n - m < 0) := by
  have hne' : cs ≠ ∅ := hne.ne_empty
  have h12 : (⟨cs, n⟩ : Sentence) ≠ ⟨cs, m⟩ := by
    intro h
    rw [Sentence.mk.injEq] at h
    exact hnm h.2
  have hnm2 : ¬ (n - m = m - n) := by omega
  have e1 : ansLoop 5 [⟨cs, n⟩, ⟨cs, m⟩] 0 0
      = ansLoop 4 [⟨cs, n⟩, ⟨cs, m⟩] 0 1 := by
    rw [show (5:Nat) = 4+1 from rfl, ansLoop_succ, if_pos (by simp),
      if_pos (by simp)]
    rw [show List.getD [(⟨cs, n⟩ : Sentence), ⟨cs, m⟩] 0 ⟨∅, 0⟩
        = ⟨cs, n⟩ from rfl, ansStep_self]
  have e2 : ansLoop 4 [⟨cs, n⟩, ⟨cs, m⟩] 0 1
      = ansLoop 3 [⟨cs, n⟩, ⟨cs, m⟩, ⟨∅, m - n⟩] 0 2 := by
    rw [show (4:Nat) = 3+1 from rfl, ansLoop_succ, if_pos (by simp),
      if_pos (by simp)]
    rw [show List.getD [(⟨cs, n⟩ : Sentence), ⟨cs, m⟩] 0 ⟨∅, 0⟩
        = ⟨cs, n⟩ from rfl,
      show List.getD [(⟨cs, n⟩ : Sentence), ⟨cs, m⟩] 1 ⟨∅, 0⟩
        = ⟨cs, m⟩ from rfl,
      ansStep_add _ _ _ h12 (Finset.Subset.refl cs)
        (by simp [Finset.sdiff_self, Sentence.mk.injEq, Ne.symm hne'])]
    simp
  have e3 : ansLoop 3 [⟨cs, n⟩, ⟨cs, m⟩, ⟨∅, m - n⟩] 0 2
      = ansLoop 2 [⟨cs, n⟩, ⟨cs, m⟩, ⟨∅, m - n⟩] 0 3 := by
    rw [show (3:Nat) = 2+1 from rfl, ansLoop_succ, if_pos (by simp),
      if_pos (by simp)]
    rw [show List.getD [(⟨cs, n⟩ : Sentence), ⟨cs, m⟩, ⟨∅, m - n⟩] 0 ⟨∅, 0⟩
        = ⟨cs, n⟩ from rfl,
      show List.getD [(⟨cs, n⟩ : Sentence), ⟨cs, m⟩, ⟨∅, m - n⟩] 2 ⟨∅, 0⟩
        = ⟨∅, m - n⟩ from rfl,
      ansStep_skip _ _ _ (fun h => hne' (Finset.subset_empty.mp h))]
  have e4 : ansLoop 2 [⟨cs, n⟩, ⟨cs, m⟩, ⟨∅, m - n⟩] 0 3
      = ansLoop 1 [⟨cs, n⟩, ⟨cs, m⟩, ⟨∅, m - n⟩] 1 0 := by
    rw [show (2:Nat) = 1+1 from rfl, ansLoop_succ, if_pos (by simp),
      if_neg (by simp)]
  have e5 : ansLoop 1 [⟨cs, n⟩, ⟨cs, m⟩, ⟨∅, m - n⟩] 1 0
      = ([⟨cs, n⟩, ⟨cs, m⟩, ⟨∅, m - n⟩, ⟨∅, n - m⟩], false) := by
    rw [show (1:Nat) = 0+1 from rfl, ansLoop_succ, if_pos (by simp),
      if_pos (by simp)]
    rw [show List.getD [(⟨cs, n⟩ : Sentence), ⟨cs, m⟩, ⟨∅, m - n⟩] 1 ⟨∅, 0⟩
        = ⟨cs, m⟩ from rfl,
      show List.getD [(⟨cs, n⟩ : Sentence), ⟨cs, m⟩, ⟨∅, m - n⟩] 0 ⟨∅, 0⟩
        = ⟨cs, n⟩ from rfl,
      ansStep_add _ _ _ (Ne.symm h12) (Finset.Subset.refl cs)
        (by simp [Finset.sdiff_self, Sentence.mk.injEq, Ne.symm hne', hnm2])]
    rw [ansLoop_zero]
    simp
  have hmem : (⟨∅, m - n⟩ : Sentence) ∈
        (AgentState.add_new_sentences 5 st).1.knowledge ∧
      (⟨∅, n - m⟩ : Sentence) ∈
        (AgentState.add_new_sentences 5 st).1.knowledge := by
    rw [add_new_sentences_knowledge_eq, hkb, e1, e2, e3, e4, e5]
    simp
  exact ⟨hmem.1, hmem.2, by omega, by omega⟩

/-- C10, witness: `{(0,0)} = 1` and `{(0,0)} = 0` on a 1×1 agent. -/
theorem c10_equal_cells_resolution_witness :
    ({((0 : Int), (0 : Int))} : Finset Cell).Nonempty ∧ (1 : Int) ≠ 0 ∧
    (⟨∅, -1⟩ : Sentence) ∈ (AgentState.add_new_sentences 5
      { height := 1, width := 1, moves_made := ∅, mines := ∅, safes := ∅,
        knowledge := [⟨{((0 : Int), (0 : Int))}, 1⟩,
                      ⟨{((0 : Int), (0 : Int))}, 0⟩] }).1.knowledge := by
  have h := c10_equal_cells_resolution {((0 : Int), (0 : Int))} 1 0
    { height := 1, width := 1, moves_made := ∅, mines := ∅, safes := ∅,
      knowledge := [⟨{((0 : Int), (0 : Int))}, 1⟩,
                    ⟨{((0 : Int), (0 : Int))}, 0⟩] }
    (by decide) (by decide) rfl
  exact ⟨by decide, by decide, h.1⟩

/-! ## Claim C6, counterexample: the Rule 2 loop can diverge -/

lemma kbDiv_length : ∀ k, (Scenario.kbDiv k).length = k + 2 := by
  intro k
  induction k with
  | zero => rfl
  | succ t ih => simp [Scenario.kbDiv, ih]

lemma kbDiv_getD_zero : ∀ k, (Scenario.kbDiv k).getD 0 ⟨∅, 0⟩ = ⟨∅, 1⟩ := by
  intro k
  induction k with
  | zero => rfl
  | succ t ih =>
    show (Scenario.kbDiv t ++ _).getD 0 ⟨∅, 0⟩ = _
    rw [List.getD_append _ _ _ _ (by rw [kbDiv_length]; omega)]
    exact ih

lemma kbDiv_getD_last :
    ∀ k, (Scenario.kbDiv k).getD (k + 1) ⟨∅, 0⟩ = ⟨∅, -(k : Int)⟩ := by
  intro k
  cases k with
  | zero => rfl
  | succ t =>
    show (Scenario.kbDiv t ++ ([⟨∅, -(t + 1 : Int)⟩] : List Sentence)).getD
        (t + 2) ⟨∅, 0⟩ = _
    rw [List.getD_append_right _ _ _ _ (by rw [kbDiv_length]), kbDiv_length,
      show t + 2 - (t + 2) = 0 from by omega, List.getD_cons_zero,
      Sentence.mk.injEq]
    refine ⟨rfl, ?_⟩
    push_cast
    ring

lemma kbDiv_count_ge : ∀ k, ∀ s ∈ Scenario.kbDiv k, -(k : Int) ≤ s.count := by
  intro k
  induction k with
  | zero =>
    intro s hs
    have hs' : s ∈ [(⟨∅, 1⟩ : Sentence), ⟨∅, 0⟩] := hs
    simp only [List.mem_cons, List.not_mem_nil, or_false] at hs'
    rcases hs' with rfl | rfl
    · show -((0 : Nat) : Int) ≤ (1 : Int)
      norm_num
    · show -((0 : Nat) : Int) ≤ (0 : Int)
      norm_num
  | succ t ih =>
    intro s hs
    have hs' : s ∈ Scenario.kbDiv t ++ ([⟨∅, -(t + 1 : Int)⟩] : List Sentence) :=
      hs
    rw [List.mem_append] at hs'
    rcases hs' with h | h
    · have := ih s h
      push_cast
      omega
    · have h' : s = ⟨∅, -(t + 1 : Int)⟩ := by simpa using h
      subst h'
      show -((t + 1 : Nat) : Int) ≤ -((t : Int) + 1)
      push_cast
      omega

lemma ansLoop_kbDiv_false (fuel : Nat) :
    ∀ k, (ansLoop fuel (Scenario.kbDiv k) 0 (k + 1)).2 = false := by
  induction fuel with
  | zero => intro k; rfl
  | succ f ih =>
    intro k
    rw [ansLoop_succ, if_pos (by rw [kbDiv_length]; omega),
      if_pos (by rw [kbDiv_length]; omega), kbDiv_getD_zero, kbDiv_getD_last,
      ansStep_add _ _ _
        (by
          rw [Ne, Sentence.mk.injEq]
          rintro ⟨-, h2⟩
          omega)
        (Finset.Subset.refl ∅)
        (by
          intro hmem
          have := kbDiv_count_ge k _ hmem
          rw [show (⟨∅ \ ∅, -(k : Int) - 1⟩ : Sentence).count
              = -(k : Int) - 1 from rfl] at this
          omega),
      show Scenario.kbDiv k ++ ([⟨∅ \ ∅, -(k : Int) - 1⟩] : List Sentence)
          = Scenario.kbDiv (k + 1) from by
        show _ = Scenario.kbDiv k ++ _
        rw [List.append_cancel_left_eq, List.cons.injEq, Sentence.mk.injEq]
        exact ⟨⟨Finset.sdiff_self ∅, by ring⟩, rfl⟩]
    exact ih (k + 1)

lemma ansLoop_kbDiv_start_false (fuel : Nat) :
    (ansLoop fuel (Scenario.kbDiv 0) 0 0).2 = false := by
  cases fuel with
  | zero => rfl
  | succ f =>
    rw [ansLoop_succ, if_pos (by rw [kbDiv_length]; omega),
      if_pos (by rw [kbDiv_length]; omega), kbDiv_getD_zero, ansStep_self]
    exact ansLoop_kbDiv_false f 0

/-- C6, counterexample.  The claim quantifies over *every* agent state; but
from the 1×1 state whose knowledge base holds the sentence `{} = 1`, the
observation `(cell=(0,0), count=0)` — well-formed for the empty mine layout —
drives `add_new_sentences` into an infinite loop: the pair `{}=1, {}=0`
resolves to `{}=-1`, then `{}=-2`, and so on, each new sentence passing the
deduplication check.  No amount of fuel makes the call return. -/
theorem c6_saturation_diverges_cex :
    WFObs ∅ Scenario.stDiv (0, 0) 0 ∧
    ¬ ∃ fuel st', AgentState.add_knowledge fuel Scenario.stDiv (0, 0) 0
        = (st', true) := by
  constructor
  · decide
  · rintro ⟨fuel, st', hrun⟩
    have hflag : (AgentState.add_knowledge fuel Scenario.stDiv (0, 0) 0).2
        = true := by rw [hrun]
    rw [show AgentState.add_knowledge fuel Scenario.stDiv (0, 0) 0
        = AgentState.saturate fuel
            (AgentState.obsState Scenario.stDiv (0, 0) 0) from rfl,
      saturate_flag_eq,
      show (AgentState.update_safes_mines
          (AgentState.obsState Scenario.stDiv (0, 0) 0)).knowledge
        = Scenario.kbDiv 0 from by decide,
      ansLoop_kbDiv_start_false fuel] at hflag
    exact Bool.false_ne_true hflag

/-! ## Soundness with respect to a mine layout -/

lemma mem_board_iff (st : AgentState) (x : Cell) :
    x ∈ st.board ↔ st.inBounds x := by
  simp only [AgentState.board, boardCells, Finset.mem_product, Finset.mem_Icc,
    AgentState.inBounds]
  omega

lemma TrueS_resolve {B M : Finset Cell} {s1 s2 : Sentence}
    (h1 : TrueS B M s1) (h2 : TrueS B M s2) (hsub : s1.cells ⊆ s2.cells) :
    TrueS B M ⟨s2.cells \ s1.cells, s2.count - s1.count⟩ := by
  obtain ⟨hb1, hc1⟩ := h1
  obtain ⟨hb2, hc2⟩ := h2
  have hsub' : s1.cells ∩ M ⊆ s2.cells ∩ M :=
    Finset.inter_subset_inter hsub (Finset.Subset.refl M)
  have hset : (s2.cells \ s1.cells) ∩ M = (s2.cells ∩ M) \ (s1.cells ∩ M) := by
    ext x
    simp only [Finset.mem_sdiff, Finset.mem_inter]
    tauto
  refine ⟨Finset.Subset.trans (Finset.sdiff_subset) hb2, ?_⟩
  show s2.count - s1.count = _
  rw [hc1, hc2, hset, Finset.card_sdiff hsub',
    Nat.cast_sub (Finset.card_le_card hsub')]

lemma mem_ansStep {kb : List Sentence} {s1 s2 s : Sentence}
    (h : s ∈ ansStep kb s1 s2) :
    s ∈ kb ∨ (s1.cells ⊆ s2.cells ∧
      s = ⟨s2.cells \ s1.cells, s2.count - s1.count⟩) := by
  unfold ansStep at h
  split at h
  · exact Or.inl h
  · split at h
    · split at h
      · exact Or.inl h
      · rw [List.mem_append] at h
        rcases h with h | h
        · exact Or.inl h
        · rename_i hsub hmem
          exact Or.inr ⟨hsub, by simpa using h⟩
    · exact Or.inl h

lemma ansLoop_preserve (P : Sentence → Prop)
    (hres : ∀ s1 s2, P s1 → P s2 → s1.cells ⊆ s2.cells →
      P ⟨s2.cells \ s1.cells, s2.count - s1.count⟩) :
    ∀ (fuel : Nat) (kb : List Sentence) (i j : Nat),
      (∀ s ∈ kb, P s) → ∀ s ∈ (ansLoop fuel kb i j).1, P s := by
  intro fuel
  induction fuel with
  | zero => exact fun kb i j hkb => hkb
  | succ f ih =>
    intro kb i j hkb
    rw [ansLoop_succ]
    split
    · split
      · rename_i hi hj
        refine ih _ i (j + 1) ?_
        intro s hs
        rcases mem_ansStep hs with h | ⟨hsub, h⟩
        · exact hkb s h
        · subst h
          exact hres _ _
            (hkb _ (List.getD_eq_getElem kb _ hi ▸ List.getElem_mem hi))
            (hkb _ (List.getD_eq_getElem kb _ hj ▸ List.getElem_mem hj))
            hsub
      · exact ih kb (i + 1) 0 hkb
    · exact hkb

lemma known_safes_inter_eq_empty {B M : Finset Cell} {s : Sentence}
    (h : TrueS B M s) : s.known_safes ∩ M = ∅ := by
  unfold Sentence.known_safes
  split
  · rename_i hc
    have h2 := h.2
    rw [hc] at h2
    have hcard : (s.cells ∩ M).card = 0 := by omega
    rw [Finset.card_eq_zero] at hcard
    exact hcard
  · exact Finset.empty_inter M

lemma known_mines_subset {B M : Finset Cell} {s : Sentence}
    (h : TrueS B M s) : s.known_mines ⊆ M := by
  unfold Sentence.known_mines
  split
  · rename_i hc
    have hcard : (s.cells ∩ M).card = s.cells.card := by
      have := h.2
      omega
    have hsub : s.cells ∩ M ⊆ s.cells := Finset.inter_subset_left
    have heq : s.cells ∩ M = s.cells :=
      Finset.eq_of_subset_of_card_le hsub (le_of_eq hcard.symm)
    intro x hx
    rw [← heq] at hx
    exact (Finset.mem_inter.mp hx).2
  · exact Finset.empty_subset M

lemma known_safes_subset_cells (s : Sentence) : s.known_safes ⊆ s.cells := by
  unfold Sentence.known_safes
  split
  · exact Finset.Subset.refl _
  · exact Finset.empty_subset _

lemma known_mines_subset_cells (s : Sentence) : s.known_mines ⊆ s.cells := by
  unfold Sentence.known_mines
  split
  · exact Finset.Subset.refl _
  · exact Finset.empty_subset _

lemma safeCands_inter_eq_empty {B M : Finset Cell} {kb : List Sentence}
    (h : ∀ s ∈ kb, TrueS B M s) : AgentState.safeCands kb ∩ M = ∅ := by
  induction kb with
  | nil => exact Finset.empty_inter M
  | cons s t ih =>
    show (s.known_safes ∪ AgentState.safeCands t) ∩ M = ∅
    rw [Finset.union_inter_distrib_right,
      known_safes_inter_eq_empty (h s (List.mem_cons_self s t)),
      ih (fun s' hs' => h s' (List.mem_cons_of_mem s hs')), Finset.union_empty]

lemma mineCands_subset {B M : Finset Cell} {kb : List Sentence}
    (h : ∀ s ∈ kb, TrueS B M s) : AgentState.mineCands kb ⊆ M := by
  induction kb with
  | nil => exact Finset.empty_subset M
  | cons s t ih =>
    show s.known_mines ∪ AgentState.mineCands t ⊆ M
    exact Finset.union_subset (known_mines_subset (h s (List.mem_cons_self s t)))
      (ih (fun s' hs' => h s' (List.mem_cons_of_mem s hs')))

lemma safeCands_subset_board {B M : Finset Cell} {kb : List Sentence}
    (h : ∀ s ∈ kb, TrueS B M s) : AgentState.safeCands kb ⊆ B := by
  induction kb with
  | nil => exact Finset.empty_subset B
  | cons s t ih =>
    show s.known_safes ∪ AgentState.safeCands t ⊆ B
    exact Finset.union_subset
      ((known_safes_subset_cells s).trans (h s (List.mem_cons_self s t)).1)
      (ih (fun s' hs' => h s' (List.mem_cons_of_mem s hs')))

lemma TrueS_sdiff_safe {B M S : Finset Cell} {s : Sentence}
    (hS : S ∩ M = ∅) (h : TrueS B M s) :
    TrueS B M ⟨s.cells \ S, s.count⟩ := by
  have hdm : ∀ x ∈ M, x ∉ S := by
    intro x hx hxS
    have : x ∈ S ∩ M := Finset.mem_inter.mpr ⟨hxS, hx⟩
    rw [hS] at this
    exact absurd this (Finset.not_mem_empty x)
  have hset : (s.cells \ S) ∩ M = s.cells ∩ M := by
    ext x
    simp only [Finset.mem_inter, Finset.mem_sdiff]
    constructor
    · rintro ⟨⟨h1, h2⟩, h3⟩
      exact ⟨h1, h3⟩
    · rintro ⟨h1, h3⟩
      exact ⟨⟨h1, hdm x h3⟩, h3⟩
  refine ⟨Finset.Subset.trans Finset.sdiff_subset h.1, ?_⟩
  show s.count = _
  rw [hset]
  exact h.2

lemma TrueS_sdiff_mine {B M S : Finset Cell} {s : Sentence}
    (hS : S ⊆ M) (h : TrueS B M s) :
    TrueS B M ⟨s.cells \ S, s.count - ((s.cells ∩ S).card : Int)⟩ := by
  have hsub' : s.cells ∩ S ⊆ s.cells ∩ M :=
    Finset.inter_subset_inter (Finset.Subset.refl _) hS
  have hset : (s.cells \ S) ∩ M = (s.cells ∩ M) \ (s.cells ∩ S) := by
    ext x
    simp only [Finset.mem_sdiff, Finset.mem_inter]
    constructor
    · rintro ⟨⟨h1, h2⟩, h3⟩
      exact ⟨⟨h1, h3⟩, fun hc => h2 hc.2⟩
    · rintro ⟨⟨h1, h3⟩, h2⟩
      exact ⟨⟨h1, fun hS' => h2 ⟨h1, hS'⟩⟩, h3⟩
  refine ⟨Finset.Subset.trans Finset.sdiff_subset h.1, ?_⟩
  show s.count - _ = _
  rw [h.2, hset, Finset.card_sdiff hsub',
    Nat.cast_sub (Finset.card_le_card hsub')]

lemma update_safes_mines_board (st : AgentState) :
    (AgentState.update_safes_mines st).board = st.board := rfl

lemma Sound_update {M : Finset Cell} {st : AgentState} (h : Sound M st) :
    Sound M (AgentState.update_safes_mines st) := by
  obtain ⟨hM, hsM, hmM, hsB, hms, hkb⟩ := h
  have hSC : AgentState.safeCands st.knowledge ∩ M = ∅ :=
    safeCands_inter_eq_empty hkb
  have hMC : AgentState.mineCands st.knowledge ⊆ M := mineCands_subset hkb
  have hSCB : AgentState.safeCands st.knowledge ⊆ st.board :=
    safeCands_subset_board hkb
  refine ⟨hM, ?_, ?_, ?_, ?_, ?_⟩
  · show (st.safes ∪ AgentState.safeCands st.knowledge) ∩ M = ∅
    rw [Finset.union_inter_distrib_right, hsM, hSC, Finset.union_empty]
  · show st.mines ∪ AgentState.mineCands st.knowledge ⊆ M
    exact Finset.union_subset hmM hMC
  · show st.safes ∪ AgentState.safeCands st.knowledge ⊆ st.board
    exact Finset.union_subset hsB hSCB
  · show st.moves_made ⊆ st.safes ∪ AgentState.safeCands st.knowledge
    exact hms.trans Finset.subset_union_left
  · intro s hs
    have hs' : s ∈ (st.knowledge.map
        (fun s => (⟨s.cells \ AgentState.safeCands st.knowledge, s.count⟩ :
          Sentence))).map
        (fun s => (⟨s.cells \ AgentState.mineCands st.knowledge,
          s.count - ((s.cells ∩ AgentState.mineCands st.knowledge).card : Int)⟩ :
          Sentence)) := hs
    rw [List.mem_map] at hs'
    obtain ⟨s1, hs1, rfl⟩ := hs'
    rw [List.mem_map] at hs1
    obtain ⟨s0, hs0, rfl⟩ := hs1
    exact TrueS_sdiff_mine hMC (TrueS_sdiff_safe hSC (hkb s0 hs0))

lemma TrueS_mark_safe {B M : Finset Cell} {c : Cell} {s : Sentence}
    (hc : c ∉ M) (h : TrueS B M s) : TrueS B M (Sentence.mark_safe c s) := by
  unfold Sentence.mark_safe
  split
  · have hset : (s.cells.erase c) ∩ M = s.cells ∩ M := by
      ext x
      simp only [Finset.mem_inter, Finset.mem_erase]
      constructor
      · rintro ⟨⟨h1, h2⟩, h3⟩
        exact ⟨h2, h3⟩
      · rintro ⟨h2, h3⟩
        exact ⟨⟨fun he => hc (he ▸ h3), h2⟩, h3⟩
    refine ⟨Finset.Subset.trans (Finset.erase_subset c s.cells) h.1, ?_⟩
    show s.count = _
    rw [hset]
    exact h.2
  · exact h

lemma TrueS_obs {M : Finset Cell} {st : AgentState} {c : Cell} {n : Int}
    (hsM : st.safes ∩ M = ∅) (hmM : st.mines ⊆ M) (hMb : M ⊆ st.board)
    (hn : n = ((trueNbrs st c ∩ M).card : Int)) :
    TrueS st.board M
      ⟨(AgentState.ring c).filter
          (fun x => x ≠ c ∧ x ∉ insert c st.safes ∧ x ∉ st.mines ∧
            st.inBounds x),
        n - (((AgentState.ring c).filter
          (fun x => x ≠ c ∧ x ∉ insert c st.safes ∧ x ∈ st.mines)).card :
            Int)⟩ := by
  have fM : ∀ x ∈ M, x ∉ st.safes := by
    intro x hx hxs
    have : x ∈ st.safes ∩ M := Finset.mem_inter.mpr ⟨hxs, hx⟩
    rw [hsM] at this
    exact absurd this (Finset.not_mem_empty x)
  have fInB : ∀ x ∈ M, st.inBounds x :=
    fun x hx => (mem_board_iff st x).mp (hMb hx)
  have hi : (AgentState.ring c).filter
        (fun x => x ≠ c ∧ x ∉ insert c st.safes ∧ x ∉ st.mines ∧
          st.inBounds x) ∩ M
      = (trueNbrs st c ∩ M) \ st.mines := by
    ext x
    simp only [Finset.mem_inter, Finset.mem_filter, Finset.mem_sdiff,
      Finset.mem_insert, trueNbrs, not_or]
    constructor
    · rintro ⟨⟨hr, hne, hni, hnm, hb⟩, hxM⟩
      exact ⟨⟨⟨hr, hne, hb⟩, hxM⟩, hnm⟩
    · rintro ⟨⟨⟨hr, hne, hb⟩, hxM⟩, hnm⟩
      exact ⟨⟨hr, hne, ⟨hne, fM x hxM⟩, hnm, hb⟩, hxM⟩
  have hii : (AgentState.ring c).filter
        (fun x => x ≠ c ∧ x ∉ insert c st.safes ∧ x ∈ st.mines)
      = (trueNbrs st c ∩ M) ∩ st.mines := by
    ext x
    simp only [Finset.mem_inter, Finset.mem_filter, Finset.mem_insert,
      trueNbrs, not_or]
    constructor
    · rintro ⟨hr, hne, hni, hm⟩
      exact ⟨⟨⟨hr, hne, fInB x (hmM hm)⟩, hmM hm⟩, hm⟩
    · rintro ⟨⟨⟨hr, hne, hb⟩, hxM⟩, hm⟩
      exact ⟨hr, hne, ⟨hne, fM x hxM⟩, hm⟩
  have hiii : (trueNbrs st c ∩ M) \ st.mines
      = (trueNbrs st c ∩ M) \ ((trueNbrs st c ∩ M) ∩ st.mines) := by
    ext x
    simp only [Finset.mem_sdiff, Finset.mem_inter]
    tauto
  constructor
  · intro x hx
    rw [Finset.mem_filter] at hx
    exact (mem_board_iff st x).mpr hx.2.2.2.2
  · show n - _ = _
    rw [hn, hi, hii, hiii,
      Finset.card_sdiff Finset.inter_subset_left,
      Nat.cast_sub (Finset.card_le_card Finset.inter_subset_left)]

lemma Sound_obsState {M : Finset Cell} {st : AgentState} {c : Cell} {n : Int}
    (h : Sound M st) (hW : WFObs M st c n) :
    Sound M (AgentState.obsState st c n) := by
  obtain ⟨hM, hsM, hmM, hsB, hms, hkb⟩ := h
  obtain ⟨hMb, hcb, hcM, hn⟩ := hW
  refine ⟨hMb, ?_, hmM, ?_, ?_, ?_⟩
  · show insert c st.safes ∩ M = ∅
    ext x
    simp only [Finset.mem_inter, Finset.mem_insert, Finset.not_mem_empty,
      iff_false, not_and, not_or]
    rintro (rfl | hxs) hxM
    · exact hcM hxM
    · have hx : x ∈ st.safes ∩ M := Finset.mem_inter.mpr ⟨hxs, hxM⟩
      rw [hsM] at hx
      exact absurd hx (Finset.not_mem_empty x)
  · show insert c st.safes ⊆ st.board
    exact Finset.insert_subset_iff.mpr ⟨hcb, hsB⟩
  · show insert c st.moves_made ⊆ insert c st.safes
    exact Finset.insert_subset_insert c hms
  · intro s hs
    have hs' : s ∈ (st.knowledge.map (Sentence.mark_safe c)) ++
        [(⟨(AgentState.get_neighbours
              (AgentState.mark_safe c
                { st with moves_made := insert c st.moves_made }) c n).1,
            (AgentState.get_neighbours
              (AgentState.mark_safe c
                { st with moves_made := insert c st.moves_made }) c n).2⟩ :
          Sentence)] := hs
    rw [List.mem_append] at hs'
    rcases hs' with hmem | hmem
    · rw [List.mem_map] at hmem
      obtain ⟨s0, hs0, rfl⟩ := hmem
      exact TrueS_mark_safe hcM (hkb s0 hs0)
    · rw [List.mem_singleton] at hmem
      subst hmem
      exact TrueS_obs hsM hmM hMb hn

lemma Sound_saturate {M : Finset Cell} {st : AgentState} (fuel : Nat)
    (h : Sound M st) : Sound M (AgentState.saturate fuel st).1 := by
  have h' := Sound_update h
  obtain ⟨hM, hsM, hmM, hsB, hms, hkb⟩ := h'
  refine ⟨hM, hsM, hmM, hsB, hms, ?_⟩
  intro s hs
  have hs' : s ∈ (ansLoop fuel (AgentState.update_safes_mines st).knowledge
      0 0).1 := hs
  exact ansLoop_preserve (TrueS st.board M)
    (fun s1 s2 h1 h2 hsub => TrueS_resolve h1 h2 hsub) fuel _ 0 0 hkb s hs'

lemma Sound_add_knowledge {M : Finset Cell} {st : AgentState} {c : Cell}
    {n : Int} (fuel : Nat) (h : Sound M st) (hW : WFObs M st c n) :
    Sound M (AgentState.add_knowledge fuel st c n).1 :=
  Sound_saturate fuel (Sound_obsState h hW)

lemma Reachable_sound {M : Finset Cell} {h w : Nat} {st : AgentState}
    (hr : Reachable M h w st) : Sound M st := by
  induction hr with
  | init hM =>
    refine ⟨hM, Finset.empty_inter M, Finset.empty_subset M,
      Finset.empty_subset _, Finset.Subset.refl _, ?_⟩
    intro s hs
    exact absurd hs (List.not_mem_nil s)
  | @step st c n fuel st' hprev hW hrun ih =>
    have h1 : (AgentState.add_knowledge fuel st c n).1 = st' := by rw [hrun]
    subst h1
    exact Sound_add_knowledge fuel ih hW

lemma Reachable_dims {M : Finset Cell} {h w : Nat} {st : AgentState}
    (hr : Reachable M h w st) : st.height = h ∧ st.width = w := by
  induction hr with
  | init _ => exact ⟨rfl, rfl⟩
  | @step st c n fuel st' hprev hW hrun ih =>
    have h1 : (AgentState.add_knowledge fuel st c n).1 = st' := by rw [hrun]
    subst h1
    exact ih

lemma reachable_stB : Reachable Scenario.M0 2 3 Scenario.stB := by
  have h0 : Reachable Scenario.M0 2 3 Scenario.st0 :=
    Reachable.init (by decide)
  have h1 : Reachable Scenario.M0 2 3 Scenario.stA :=
    Reachable.step h0
      (show WFObs Scenario.M0 Scenario.st0 (0, 0) 1 by decide)
      (show AgentState.add_knowledge 40 Scenario.st0 (0, 0) 1
        = (Scenario.stA, true) by decide)
  exact Reachable.step h1
    (show WFObs Scenario.M0 Scenario.stA (1, 1) 1 by decide)
    (show AgentState.add_knowledge 40 Scenario.stA (1, 1) 1
      = (Scenario.stB, true) by decide)

/-! ## Claim C3: sentence count invariant -/

/-- C3.  For every agent state reachable by well-formed observations (i.e.
observations consistent with an actual mine layout `M` on the board), every
sentence in the knowledge base satisfies `0 ≤ count ≤ |cells|` — in
particular after the mark-safe/mark-mine propagation and the subset
resolution performed inside every `recordObservation` call. -/
theorem c3_sentence_count_invariant {M : Finset Cell} {h w : Nat}
    {st : AgentState} (hr : Reachable M h w st) :
    ∀ s ∈ st.knowledge, 0 ≤ s.count ∧ s.count ≤ (s.cells.card : Int) := by
  intro s hs
  have hT := (Reachable_sound hr).2.2.2.2.2 s hs
  rw [hT.2]
  constructor
  · exact Int.ofNat_nonneg _
  · exact_mod_cast Finset.card_le_card Finset.inter_subset_left

/-- C3, witness: the 2×3 scenario state after two observations. -/
theorem c3_sentence_count_invariant_witness :
    Reachable Scenario.M0 2 3 Scenario.stB ∧
    ∀ s ∈ Scenario.stB.knowledge,
      0 ≤ s.count ∧ s.count ≤ (s.cells.card : Int) :=
  ⟨reachable_stB, c3_sentence_count_invariant reachable_stB⟩

/-! ## Claim C4: disjointness of classifications -/

/-- C4.  For every agent state reachable by well-formed observations, the
safe set and the mine set are disjoint: safes stays disjoint from the true
layout `M` while mines stays inside `M`. -/
theorem c4_safes_mines_disjoint {M : Finset Cell} {h w : Nat}
    {st : AgentState} (hr : Reachable M h w st) :
    st.safes ∩ st.mines = ∅ := by
  obtain ⟨-, hsM, hmM, -, -, -⟩ := Reachable_sound hr
  ext x
  simp only [Finset.mem_inter, Finset.not_mem_empty, iff_false, not_and]
  intro hxs hxm
  have hx : x ∈ st.safes ∩ M := Finset.mem_inter.mpr ⟨hxs, hmM hxm⟩
  rw [hsM] at hx
  exact absurd hx (Finset.not_mem_empty x)

/-- C4, witness: the 2×3 scenario state after two observations. -/
theorem c4_safes_mines_disjoint_witness :
    Reachable Scenario.M0 2 3 Scenario.stB ∧
    Scenario.stB.safes ∩ Scenario.stB.mines = ∅ :=
  ⟨reachable_stB, c4_safes_mines_disjoint reachable_stB⟩

/-! ## Claim C7: random-move exhaustion -/

lemma randLoop_ne_some_none (st : AgentState) :
    ∀ draws, AgentState.randLoop st draws ≠ some none := by
  intro draws
  induction draws with
  | nil => simp [AgentState.randLoop]
  | cons d rest ih =>
    show (if d ∉ st.moves_made ∧ d ∉ st.mines then some (some d)
      else AgentState.randLoop st rest) ≠ some none
    split
    · simp
    · exact ih

lemma randLoop_mem (st : AgentState) :
    ∀ draws c, AgentState.randLoop st draws = some (some c) →
      c ∉ st.moves_made ∧ c ∉ st.mines := by
  intro draws
  induction draws with
  | nil => simp [AgentState.randLoop]
  | cons d rest ih =>
    intro c hc
    rw [show AgentState.randLoop st (d :: rest)
        = (if d ∉ st.moves_made ∧ d ∉ st.mines then some (some d)
          else AgentState.randLoop st rest) from rfl] at hc
    split at hc
    · rename_i hcond
      have : d = c := by simpa using hc
      exact this ▸ hcond
    · exact ih c hc

lemma boardCells_card (h w : Nat) : (boardCells h w).card = h * w := by
  rw [boardCells, Finset.card_product, Int.card_Icc, Int.card_Icc]
  have h1 : ((h : Int) - 1 + 1 - 0).toNat = h := by omega
  have h2 : ((w : Int) - 1 + 1 - 0).toNat = w := by omega
  rw [h1, h2]

/-- C7.  For every agent state reachable by well-formed observations:
`make_random_move` returns Python `None` exactly when `movesMade ∪ mines`
covers the whole board, and any cell it returns lies in neither `movesMade`
nor `mines`. -/
theorem c7_random_move_exhaustion {M : Finset Cell} {h w : Nat}
    {st : AgentState} (hr : Reachable M h w st) :
    (∀ draws, AgentState.make_random_move st draws = some none ↔
      st.moves_made ∪ st.mines = st.board) ∧
    (∀ draws c, AgentState.make_random_move st draws = some (some c) →
      c ∉ st.moves_made ∧ c ∉ st.mines) := by
  obtain ⟨hM, hsM, hmM, hsB, hms, -⟩ := Reachable_sound hr
  have hmB : st.moves_made ⊆ st.board := hms.trans hsB
  have hminesB : st.mines ⊆ st.board := hmM.trans hM
  have hdisj : Disjoint st.moves_made st.mines := by
    rw [Finset.disjoint_left]
    intro x hxm hxmine
    have hx : x ∈ st.safes ∩ M := Finset.mem_inter.mpr ⟨hms hxm, hmM hxmine⟩
    rw [hsM] at hx
    exact absurd hx (Finset.not_mem_empty x)
  have hcu : (st.moves_made ∪ st.mines).card
      = st.moves_made.card + st.mines.card := Finset.card_union_of_disjoint hdisj
  have hbc : st.board.card = st.height * st.width :=
    boardCells_card st.height st.width
  have key : st.moves_left = 0 ↔ st.moves_made ∪ st.mines = st.board := by
    unfold AgentState.moves_left AgentState.board_size
    constructor
    · intro h0
      refine Finset.eq_of_subset_of_card_le
        (Finset.union_subset hmB hminesB) ?_
      rw [hcu, hbc]
      omega
    · intro hu
      have hcards := congrArg Finset.card hu
      rw [hcu, hbc] at hcards
      omega
  refine ⟨?_, ?_⟩
  · intro draws
    unfold AgentState.make_random_move
    by_cases h0 : st.moves_left = 0
    · rw [if_pos h0]
      simp [key.mp h0]
    · rw [if_neg h0]
      constructor
      · intro hcontra
        exact absurd hcontra (randLoop_ne_some_none st draws)
      · intro hu
        exact absurd (key.mpr hu) h0
  · intro draws c hc
    unfold AgentState.make_random_move at hc
    split at hc
    · simp at hc
    · exact randLoop_mem st draws c hc

/-- C7, witness: a reachable 2×2 end-of-game state (three cells observed,
`(1,1)` deduced to be a mine) on which `make_random_move` returns `None`. -/
theorem c7_random_move_exhaustion_witness :
    Reachable Scenario.M1 2 2 Scenario.su3 ∧
    Scenario.su3.moves_made ∪ Scenario.su3.mines = Scenario.su3.board ∧
    AgentState.make_random_move Scenario.su3 [] = some none := by
  have h0 : Reachable Scenario.M1 2 2 Scenario.su0 :=
    Reachable.init (by decide)
  have h1 : Reachable Scenario.M1 2 2 Scenario.su1 :=
    Reachable.step h0
      (show WFObs Scenario.M1 Scenario.su0 (0, 0) 1 by decide)
      (show AgentState.add_knowledge 40 Scenario.su0 (0, 0) 1
        = (Scenario.su1, true) by decide)
  have h2 : Reachable Scenario.M1 2 2 Scenario.su2 :=
    Reachable.step h1
      (show WFObs Scenario.M1 Scenario.su1 (0, 1) 1 by decide)
      (show AgentState.add_knowledge 40 Scenario.su1 (0, 1) 1
        = (Scenario.su2, true) by decide)
  have h3 : Reachable Scenario.M1 2 2 Scenario.su3 :=
    Reachable.step h2
      (show WFObs Scenario.M1 Scenario.su2 (1, 0) 1 by decide)
      (show AgentState.add_knowledge 40 Scenario.su2 (1, 0) 1
        = (Scenario.su3, true) by decide)
  have hcover : Scenario.su3.moves_made ∪ Scenario.su3.mines
      = Scenario.su3.board := by decide
  exact ⟨h3, hcover,
    ((c7_random_move_exhaustion h3).1 []).mpr hcover⟩

/-! ## Claim C6 (amended): saturation terminates from sound states -/

lemma mem_SentU {B M : Finset Cell} {s : Sentence} :
    s ∈ SentU B M ↔ TrueS B M s := by
  unfold SentU TrueS
  rw [Finset.mem_image]
  constructor
  · rintro ⟨cs, hcs, rfl⟩
    rw [Finset.mem_powerset] at hcs
    exact ⟨hcs, rfl⟩
  · rintro ⟨h1, h2⟩
    exact ⟨s.cells, Finset.mem_powerset.mpr h1,
      by rw [Sentence.mk.injEq]; exact ⟨rfl, h2.symm⟩⟩

lemma len_le_kbPot (B M : Finset Cell) (kb : List Sentence) :
    kb.length ≤ kbPot B M kb :=
  Nat.le_add_right _ _

lemma len_lt_kbPot {B M : Finset Cell} {kb : List Sentence} {ns : Sentence}
    (hT : TrueS B M ns) (hmem : ns ∉ kb) : kb.length < kbPot B M kb := by
  unfold kbPot
  have hns : ns ∈ SentU B M \ kb.toFinset :=
    Finset.mem_sdiff.mpr ⟨mem_SentU.mpr hT,
      fun hc => hmem (List.mem_toFinset.mp hc)⟩
  have hpos : 0 < (SentU B M \ kb.toFinset).card :=
    Finset.card_pos.mpr ⟨ns, hns⟩
  omega

lemma kbPot_append {B M : Finset Cell} {kb : List Sentence} {ns : Sentence}
    (hT : TrueS B M ns) (hmem : ns ∉ kb) :
    kbPot B M (kb ++ [ns]) = kbPot B M kb := by
  unfold kbPot
  rw [List.length_append, List.length_singleton]
  have hns : ns ∈ SentU B M \ kb.toFinset :=
    Finset.mem_sdiff.mpr ⟨mem_SentU.mpr hT,
      fun hc => hmem (List.mem_toFinset.mp hc)⟩
  have htf : SentU B M \ (kb ++ [ns]).toFinset
      = (SentU B M \ kb.toFinset).erase ns := by
    ext x
    simp only [Finset.mem_sdiff, Finset.mem_erase, List.toFinset_append,
      Finset.mem_union, List.toFinset_cons, List.toFinset_nil,
      insert_emptyc_eq, Finset.mem_insert, Finset.not_mem_empty, or_false,
      List.mem_toFinset, not_or, Finset.mem_singleton]
    tauto
  rw [htf, Finset.card_erase_of_mem hns]
  have hpos : 0 < (SentU B M \ kb.toFinset).card :=
    Finset.card_pos.mpr ⟨ns, hns⟩
  omega

lemma ansStep_cases (kb : List Sentence) (s1 s2 : Sentence) :
    ansStep kb s1 s2 = kb ∨
      (s1.cells ⊆ s2.cells ∧
        (⟨s2.cells \ s1.cells, s2.count - s1.count⟩ : Sentence) ∉ kb ∧
        ansStep kb s1 s2
          = kb ++ [⟨s2.cells \ s1.cells, s2.count - s1.count⟩]) := by
  unfold ansStep
  by_cases h1 : s1 = s2
  · rw [if_pos h1]
    exact Or.inl rfl
  · rw [if_neg h1]
    by_cases h2 : s1.cells ⊆ s2.cells
    · rw [if_pos h2]
      by_cases h3 : (⟨s2.cells \ s1.cells, s2.count - s1.count⟩ : Sentence) ∈ kb
      · rw [if_pos h3]
        exact Or.inl rfl
      · rw [if_neg h3]
        exact Or.inr ⟨h2, h3, rfl⟩
    · rw [if_neg h2]
      exact Or.inl rfl

lemma getD_mem_of_lt {kb : List Sentence} {i : Nat} (hi : i < kb.length) :
    kb.getD i ⟨∅, 0⟩ ∈ kb :=
  List.getD_eq_getElem kb _ hi ▸ List.getElem_mem hi

lemma measure_j_arith (P L i j : Nat) (hj : j < L) :
    (P - L) * (P + 2) * (P + 2) + (L - i) * (P + 2) + (L + 1 - (j + 1))
      < (P - L) * (P + 2) * (P + 2) + (L - i) * (P + 2) + (L + 1 - j) := by
  generalize (P - L) * (P + 2) * (P + 2) = A
  generalize (L - i) * (P + 2) = B
  omega

lemma measure_i_arith (P L i j : Nat) (hi : i < L) (hL : L ≤ P) :
    (P - L) * (P + 2) * (P + 2) + (L - (i + 1)) * (P + 2) + (L + 1 - 0)
      < (P - L) * (P + 2) * (P + 2) + (L - i) * (P + 2) + (L + 1 - j) := by
  have e : L - i = (L - (i + 1)) + 1 := by omega
  rw [e, Nat.succ_mul]
  generalize (P - L) * (P + 2) * (P + 2) = A
  generalize (L - (i + 1)) * (P + 2) = B
  omega

lemma measure_append_arith (P L i j : Nat) (hi : i < L) (hj : j < L)
    (hL : L < P) :
    (P - (L + 1)) * (P + 2) * (P + 2) + (L + 1 - i) * (P + 2)
        + (L + 1 + 1 - (j + 1))
      < (P - L) * (P + 2) * (P + 2) + (L - i) * (P + 2) + (L + 1 - j) := by
  zify [show L + 1 ≤ P from hL, show i ≤ L from le_of_lt hi,
    show i ≤ L + 1 from by omega, show j + 1 ≤ L + 1 + 1 from by omega,
    show j ≤ L + 1 from by omega, show L ≤ P from le_of_lt hL]
  nlinarith [sq_nonneg ((P : Int) + 2), sq_nonneg ((P : Int) + 1)]

lemma ansLoop_total {B M : Finset Cell} (P0 : Nat) :
    ∀ n (kb : List Sentence) (i j : Nat), (∀ s ∈ kb, TrueS B M s) →
      kbPot B M kb = P0 → ansMeasure P0 kb i j < n →
      (ansLoop n kb i j).2 = true := by
  intro n
  induction n with
  | zero =>
    intro kb i j _ _ hmu
    exact absurd hmu (Nat.not_lt_zero _)
  | succ f ih =>
    intro kb i j hkb hpot hmu
    rw [ansLoop_succ]
    by_cases hi : i < kb.length
    · rw [if_pos hi]
      by_cases hj : j < kb.length
      · rw [if_pos hj]
        have hs1 : TrueS B M (kb.getD i ⟨∅, 0⟩) := hkb _ (getD_mem_of_lt hi)
        have hs2 : TrueS B M (kb.getD j ⟨∅, 0⟩) := hkb _ (getD_mem_of_lt hj)
        rcases ansStep_cases kb (kb.getD i ⟨∅, 0⟩) (kb.getD j ⟨∅, 0⟩) with
          hcase | ⟨hsub, hnm, hcase⟩
        · rw [hcase]
          apply ih kb i (j + 1) hkb hpot
          have hdec : ansMeasure P0 kb i (j + 1) < ansMeasure P0 kb i j :=
            measure_j_arith P0 kb.length i j hj
          omega
        · rw [hcase]
          have hTns := TrueS_resolve hs1 hs2 hsub
          refine ih _ i (j + 1) ?_ ?_ ?_
          · intro s hs
            rw [List.mem_append] at hs
            rcases hs with hs | hs
            · exact hkb s hs
            · rw [List.mem_singleton] at hs
              exact hs ▸ hTns
          · rw [kbPot_append hTns hnm]
            exact hpot
          · have hlen : kb.length < P0 := hpot ▸ len_lt_kbPot hTns hnm
            have hdec : ansMeasure P0 (kb ++
                [(⟨(kb.getD j ⟨∅, 0⟩).cells \ (kb.getD i ⟨∅, 0⟩).cells,
                  (kb.getD j ⟨∅, 0⟩).count - (kb.getD i ⟨∅, 0⟩).count⟩ :
                    Sentence)]) i (j + 1) < ansMeasure P0 kb i j := by
              unfold ansMeasure
              rw [List.length_append, List.length_singleton]
              exact measure_append_arith P0 kb.length i j hi hj hlen
            omega
      · rw [if_neg hj]
        apply ih kb (i + 1) 0 hkb hpot
        have hlen : kb.length ≤ P0 := hpot ▸ len_le_kbPot B M kb
        have hdec : ansMeasure P0 kb (i + 1) 0 < ansMeasure P0 kb i j :=
          measure_i_arith P0 kb.length i j hi hlen
        omega
    · rw [if_neg hi]

/-- C6, amended.  Saturation does terminate from every *sound* agent state —
one whose sentences, safes and mines are all correct for some mine layout on
the board (every state reachable by well-formed observations is such, and
such states are the spec's domain).  Given a further well-formed observation,
some fuel makes `add_knowledge` run to completion: every sentence Rule 2 can
append is true under the layout, so the deduplicated appends are drawn from
the finite universe `SentU` and the loop measure is well-founded. -/
theorem c6_saturation_terminates_sound {M : Finset Cell} {st : AgentState}
    {c : Cell} {n : Int} (hs : Sound M st) (hW : WFObs M st c n) :
    ∃ fuel st', AgentState.add_knowledge fuel st c n = (st', true) := by
  have h4 : Sound M (AgentState.update_safes_mines
      (AgentState.obsState st c n)) :=
    Sound_update (Sound_obsState hs hW)
  have hkb : ∀ s ∈ (AgentState.update_safes_mines
      (AgentState.obsState st c n)).knowledge, TrueS st.board M s :=
    h4.2.2.2.2.2
  set kb := (AgentState.update_safes_mines
    (AgentState.obsState st c n)).knowledge with hkbdef
  set fuel := ansMeasure (kbPot st.board M kb) kb 0 0 + 1 with hfuel
  have hflag : (ansLoop fuel kb 0 0).2 = true :=
    ansLoop_total (kbPot st.board M kb) fuel kb 0 0 hkb rfl
      (Nat.lt_succ_self _)
  refine ⟨fuel, (AgentState.add_knowledge fuel st c n).1, ?_⟩
  have h2 : (AgentState.add_knowledge fuel st c n).2 = true := by
    rw [show AgentState.add_knowledge fuel st c n
        = AgentState.saturate fuel (AgentState.obsState st c n) from rfl,
      saturate_flag_eq]
    exact hflag
  exact Prod.ext rfl h2

/-- C6, witness: the sound 2×3 state `stA` with the well-formed observation
`((1,1), 1)`. -/
theorem c6_saturation_terminates_sound_witness :
    Sound Scenario.M0 Scenario.stA ∧
    WFObs Scenario.M0 Scenario.stA (1, 1) 1 ∧
    ∃ fuel st', AgentState.add_knowledge fuel Scenario.stA (1, 1) 1
      = (st', true) := by
  have hs : Sound Scenario.M0 Scenario.stA := by decide
  have hW : WFObs Scenario.M0 Scenario.stA (1, 1) 1 := by decide
  exact ⟨hs, hW, c6_saturation_terminates_sound hs hW⟩
